import Mathlib

/-!
Shallow embedding of `jfFileSystem` (src/index.js): a synchronous
filesystem utility class offering recursive scan (`scandir`), recursive
filtered delete (`rmdir`), recursive directory creation (`mkdir`),
read/write/copy, upward ancestor search (`findUp`), existence/kind
queries (`exists`, `isDirectory`, `isFile`) and an observable log
channel (`log`).

Modelling choices:
- A filesystem is a tree of named entries.  Absolute paths are lists of
  path segments (the root is `[]`); `render` turns a segment list into
  the slash-separated string the JS code manipulates, and path
  primitives (`path.join`, `path.dirname`, `path.relative`,
  `path.basename`) — external collaborators per the spec — become
  `++ [seg]`, `List.dropLast`, dropping a prefix, and `getLast`.
- `fs.readdirSync` order is the order of the children list of a
  directory node.  JS `Array.prototype.sort()` on path strings is
  `List.mergeSort` keyed by the rendered string with `String` order.
- Synchronous calls that may throw (`lstatSync` on a missing path,
  `rmdirSync` on a non-empty directory, `mkdirSync` on a collision)
  return `Except FsError`.
- Emitted log events are collected in a returned list; the observer
  mechanics of `log` itself are modelled separately for claim C4.
-/

namespace JfFs

/-- Kind and content of a filesystem node, as distinguished by
`fs.lstatSync`: regular file (with byte content), directory (with the
`readdirSync`-ordered children), symbolic link, or any other kind
(socket, fifo, ...). -/
inductive Entry where
  | file (content : List Nat)
  | dir (children : List (String × Entry))
  | symlink
  | unsupported

/-- A whole filesystem: the children of the root directory. -/
abbrev RootFs := List (String × Entry)

/-- A log event as built by `log`: `{ level, label, args }` (the `name`
field is modelled in the dedicated `log` model below). -/
structure LogEvent where
  level : String
  label : String
  args : List String
deriving Repr, DecidableEq

/-- The `filter` argument of `scandir`/`rmdir`: absent (`null`) or a
predicate on the path string (a `RegExp` is one such predicate, per the
source's `filter.test(dir)`). -/
inductive ScanFilter where
  | null
  | pred (g : String → Bool)

/-- The filter test of `scandir`/`rmdir`:
`!filter || filter(dir) || filter.test(dir)`. -/
def accepts : ScanFilter → String → Bool
  | .null, _ => true
  | .pred g, p => g p

/-- Render an absolute segment path as the slash-separated string the
JS code works with. -/
def render (segs : List String) : String :=
  segs.foldl (fun acc s => acc ++ "/" ++ s) ""

/-- Comparison used by `_files.sort()`: JS default string order on the
rendered paths. -/
def pathLe (a b : List String) : Bool :=
  decide (render a ≤ render b)

/-- Child lookup in a directory's children list (`readdirSync` yields
unique names; first match wins). -/
def getChild (cs : List (String × Entry)) (n : String) : Option Entry :=
  match cs with
  | [] => none
  | (m, e) :: rest => if m = n then some e else getChild rest n

/-- Replace the child named `n` (or append it) in a children list. -/
def setChild (cs : List (String × Entry)) (n : String) (e : Entry) :
    List (String × Entry) :=
  match cs with
  | [] => [(n, e)]
  | (m, c) :: rest => if m = n then (m, e) :: rest else (m, c) :: setChild rest n e

/-- Resolve an absolute segment path inside a children list; `none`
when the path does not exist.  Non-directory entries are leaves. -/
def lookupCs (cs : List (String × Entry)) (segs : List String) : Option Entry :=
  match segs with
  | [] => some (.dir cs)
  | n :: rest =>
    match getChild cs n with
    | some (.dir cs2) => lookupCs cs2 rest
    | some e => match rest with | [] => some e | _ :: _ => none
    | none => none

/-- Model of `exists(pathname)`: `fs.existsSync` on the joined path. -/
def existsB (fs : RootFs) (segs : List String) : Bool :=
  (lookupCs fs segs).isSome

/-- Label of the warn trace emitted by `scandir` on a missing root. -/
def labelNotFound : String := "Directorio no encontrado: %s"

/-- Label of the info trace emitted by `scandir` on an unsupported
entry kind. -/
def labelUnsupported : String := "Tipo de archivo no soportado: %s"

mutual
/-- Model of `scandir(dir, filter)` (src/index.js lines 266–297), acting on the
entry resolved at `p` (`oe = none` models a nonexistent path, the
`!this.exists(dir)` branch).  Returns the pushed file paths (sorted at
the end, as `_files.sort()`) together with the emitted log events. -/
def scanAt (p : List String) (oe : Option Entry) (f : ScanFilter) :
    List (List String) × List LogEvent :=
  if accepts f (render p) then
    let r : List (List String) × List LogEvent :=
      match oe with
      | some (.dir cs) => scanChildren p cs f
      | some (.file _) => ([p], [])
      | some .symlink => ([], [])
      | some .unsupported => ([], [⟨"info", labelUnsupported, [render p]⟩])
      | none => ([], [⟨"warn", labelNotFound, [render p]⟩])
    (r.1.mergeSort pathLe, r.2)
  else ([], [])
termination_by sizeOf oe

/-- The `readdirSync(dir).forEach(file => push(...scandir(join(dir,
file), filter)))` loop of `scandir`. -/
def scanChildren (p : List String) (cs : List (String × Entry)) (f : ScanFilter) :
    List (List String) × List LogEvent :=
  match cs with
  | [] => ([], [])
  | (n, c) :: rest =>
    let r1 := scanAt (p ++ [n]) (some c) f
    let r2 := scanChildren p rest f
    (r1.1 ++ r2.1, r1.2 ++ r2.2)
termination_by sizeOf cs
end

/-- Top-level `scandir(dir, filter)`: resolve `dir` in the filesystem
and scan. -/
def scandir (fs : RootFs) (dir : List String) (f : ScanFilter) :
    List (List String) × List LogEvent :=
  scanAt dir (lookupCs fs dir) f

mutual
/-- All regular-file paths under an entry at path `p`, ignoring any
filter: the reference enumeration a scan result is compared against. -/
def filePaths (p : List String) (e : Entry) : List (List String) :=
  match e with
  | .file _ => [p]
  | .dir cs => filePathsL p cs
  | .symlink => []
  | .unsupported => []
termination_by sizeOf e

/-- Version of `filePaths` over a children list. -/
def filePathsL (p : List String) (cs : List (String × Entry)) :
    List (List String) :=
  match cs with
  | [] => []
  | (n, c) :: rest => filePaths (p ++ [n]) c ++ filePathsL p rest
termination_by sizeOf cs
end

/-- Errors thrown by the underlying `fs` primitives (propagated
unmodified, per the spec's fatal-error category). -/
inductive FsError where
  | enoent (p : String)
  | enotempty (p : String)
  | eexist (p : String)
  | enotdir (p : String)
  | eisdir (p : String)
deriving Repr, DecidableEq

/-- Model of `path.relative(__dirname, dir)` as used in `rmdir`'s trace: an
external path primitive; no claim depends on its value, so it is
abstracted as the path itself. -/
def relativeDirname (p : String) : String := p

/-- Label of the per-directory info trace of `rmdir`. -/
def labelRemoving : String := "Eliminando archivos en %s"

/-- Label of the per-level count trace of `rmdir`. -/
def labelRemoved : String := "%s archivo(s) eliminado(s)"

mutual
/-- Model of `rmdir(dir, level, filter)` (src/index.js lines 221–254), acting on
the entry resolved at `p` (`oe = none`: nonexistent path, on which
`fs.lstatSync` throws).  Returns the entry left at `p` (`none` when
removed), the count of deleted files/symlinks and the emitted events;
`fs.rmdirSync` throws when entries remain in the directory. -/
def rmdirAt (p : List String) (oe : Option Entry) (level : Int) (f : ScanFilter) :
    Except FsError (Option Entry × Nat × List LogEvent) :=
  if accepts f (render p) then
    match oe with
    | none => .error (.enoent (render p))
    | some (.dir cs) =>
      let pre : List LogEvent :=
        if 0 < level then [⟨"info", labelRemoving, [relativeDirname (render p)]⟩] else []
      match rmdirChildren p cs (level - 1) f with
      | .error err => .error err
      | .ok (cs2, count, evs) =>
        let post : List LogEvent :=
          if 0 < level then [⟨"info", labelRemoved, [toString count]⟩] else []
        if (scanAt p (some (.dir cs2)) .null).1.length = 0 then
          match cs2 with
          | [] => .ok (none, count, pre ++ evs ++ post)
          | _ :: _ => .error (.enotempty (render p))
        else .ok (some (.dir cs2), count, pre ++ evs ++ post)
    | some (.file _) =>
      .ok (none, 1, if 0 < level then [⟨"info", labelRemoved, [toString 1]⟩] else [])
    | some .symlink =>
      .ok (none, 1, if 0 < level then [⟨"info", labelRemoved, [toString 1]⟩] else [])
    | some .unsupported =>
      .ok (some .unsupported, 0,
        if 0 < level then [⟨"info", labelRemoved, [toString 0]⟩] else [])
  else .ok (oe, 0, [])
termination_by sizeOf oe

/-- The `readdirSync(dir).forEach(file => count += rmdir(join(dir,
file), level - 1, filter))` loop of `rmdir`, threading the surviving
children. -/
def rmdirChildren (p : List String) (cs : List (String × Entry)) (level : Int)
    (f : ScanFilter) :
    Except FsError (List (String × Entry) × Nat × List LogEvent) :=
  match cs with
  | [] => .ok ([], 0, [])
  | (n, c) :: rest =>
    match rmdirAt (p ++ [n]) (some c) level f with
    | .error err => .error err
    | .ok (oc, k1, e1) =>
      match rmdirChildren p rest level f with
      | .error err => .error err
      | .ok (rest2, k2, e2) =>
        .ok ((match oc with | some c2 => [(n, c2)] | none => []) ++ rest2,
             k1 + k2, e1 ++ e2)
termination_by sizeOf cs
end

/-- Top-level `rmdir(dir, level, filter)`. -/
def rmdir (fs : RootFs) (dir : List String) (level : Int) (f : ScanFilter) :
    Except FsError (Option Entry × Nat × List LogEvent) :=
  rmdirAt dir (lookupCs fs dir) level f

/-- The `while (_result !== _root && !this.exists(_result, filename))
_result = path.dirname(_result)` loop of `findUp` (src/index.js lines
65–86); the root of a resolved absolute path is `[]`. -/
def findUpLoop (fs : RootFs) (segs : List String) (filename : String) :
    List String :=
  match segs with
  | [] => []
  | x :: xs =>
    if existsB fs ((x :: xs) ++ [filename]) then x :: xs
    else findUpLoop fs (x :: xs).dropLast filename
termination_by segs.length
decreasing_by simp [List.length_dropLast]

/-- Model of `findUp(directory, filename, asFile)`: walk up from the resolved
`directory`, then test once more (this covers the root), returning the
directory (or the joined file path) or `null`. -/
def findUp (fs : RootFs) (dir : List String) (filename : String) (asFile : Bool) :
    Option (List String) :=
  let r := findUpLoop fs dir filename
  if existsB fs (r ++ [filename]) then
    some (if asFile then r ++ [filename] else r)
  else none

/-- Model of `fs.statSync(path)`: throws on a nonexistent path.  Symlink-target
resolution is not modelled (no claim exercises it); the node's own kind
stands in. -/
def statSync (fs : RootFs) (segs : List String) : Except FsError Entry :=
  match lookupCs fs segs with
  | some e => .ok e
  | none => .error (.enoent (render segs))

/-- Model of `isDirectory(path)`: `this.exists(path) ?
fs.statSync(path).isDirectory() : false`. -/
def isDirectory (fs : RootFs) (segs : List String) : Except FsError Bool :=
  if existsB fs segs then
    (statSync fs segs).map (fun e => match e with | .dir _ => true | _ => false)
  else .ok false

/-- Model of `isFile(path)`: `this.exists(path) ? fs.statSync(path).isFile() :
false`. -/
def isFile (fs : RootFs) (segs : List String) : Except FsError Bool :=
  if existsB fs segs then
    (statSync fs segs).map (fun e => match e with | .file _ => true | _ => false)
  else .ok false

/-- The boolean value `this.isDirectory(dir)` evaluates to (it never
throws: the stat runs only behind the existence check). -/
def isDirB (fs : RootFs) (segs : List String) : Bool :=
  match lookupCs fs segs with
  | some (.dir _) => true
  | _ => false

/-- Model of `fs.mkdirSync(dir)`: create a single directory; throws when the
path already exists, when an intermediate component is missing or is
not a directory, or at the root. -/
def mkdirSyncCs (cs : List (String × Entry)) (segs : List String) (full : String) :
    Except FsError (List (String × Entry)) :=
  match segs with
  | [] => .error (.eexist full)
  | [n] =>
    match getChild cs n with
    | some _ => .error (.eexist full)
    | none => .ok (cs ++ [(n, .dir [])])
  | n :: rest =>
    match getChild cs n with
    | some (.dir cs2) =>
      match mkdirSyncCs cs2 rest full with
      | .error err => .error err
      | .ok cs2' => .ok (setChild cs n (.dir cs2'))
    | some _ => .error (.enotdir full)
    | none => .error (.enoent full)

/-- Label of the info trace emitted by `mkdir`. -/
def labelDirCreated : String := "Directorio %s creado"

/-- Model of `mkdir(dir)` (src/index.js lines 163–172): recursive creation,
parent first; a no-op when `dir` is already a directory.  Returns the
new filesystem and the emitted events.  For the root (`[]`),
`isDirB` is `true` by construction, so the dead `[]` arm of the match
is never reached. -/
def mkdir (fs : RootFs) (segs : List String) :
    Except FsError (RootFs × List LogEvent) :=
  if isDirB fs segs then .ok (fs, [])
  else
    match segs with
    | [] => .ok (fs, [])
    | x :: xs =>
      match mkdir fs (x :: xs).dropLast with
      | .error err => .error err
      | .ok (fs1, evs1) =>
        match mkdirSyncCs fs1 segs (render segs) with
        | .error err => .error err
        | .ok fs2 => .ok (fs2, evs1 ++ [⟨"info", labelDirCreated, [render segs]⟩])
termination_by segs.length
decreasing_by simp [List.length_dropLast]

/-- The `encoding` argument of `read`/`write`: `'utf8'` (default) or
`null` (raw `Buffer` mode, used by `copy`).  Content is modelled as
bytes in both modes; text decoding is an external concern no claim
depends on. -/
inductive Encoding where
  | utf8
  | raw
deriving Repr, DecidableEq

/-- Model of `read(filename, encoding)`: `fs.readFileSync`. -/
def read (fs : RootFs) (segs : List String) (_enc : Encoding) :
    Except FsError (List Nat) :=
  match lookupCs fs segs with
  | some (.file c) => .ok c
  | some _ => .error (.eisdir (render segs))
  | none => .error (.enoent (render segs))

/-- Model of `fs.writeFileSync(filename, content, encoding)`: create or
overwrite the file at `segs`; throws when the path is a directory or an
intermediate component is missing or is not a directory. -/
def writeFileCs (cs : List (String × Entry)) (segs : List String)
    (content : List Nat) (full : String) :
    Except FsError (List (String × Entry)) :=
  match segs with
  | [] => .error (.eisdir full)
  | [n] =>
    match getChild cs n with
    | some (.dir _) => .error (.eisdir full)
    | _ => .ok (setChild cs n (.file content))
  | n :: rest =>
    match getChild cs n with
    | some (.dir cs2) =>
      match writeFileCs cs2 rest content full with
      | .error err => .error err
      | .ok cs2' => .ok (setChild cs n (.dir cs2'))
    | some _ => .error (.enotdir full)
    | none => .error (.enoent full)

/-- Label of the info trace emitted by `write`. -/
def labelWriting : String := "Escribiendo %s bytes en el archivo %s"

/-- Model of `write(filename, content, encoding)` (src/index.js lines 308–313):
`this.mkdir(path.dirname(filename))`, an info trace, then
`fs.writeFileSync`. -/
def write (fs : RootFs) (segs : List String) (content : List Nat)
    (_enc : Encoding) : Except FsError (RootFs × List LogEvent) :=
  match mkdir fs segs.dropLast with
  | .error err => .error err
  | .ok (fs1, evs1) =>
    match writeFileCs fs1 segs content (render segs) with
    | .error err => .error err
    | .ok fs2 =>
      .ok (fs2, evs1 ++ [⟨"info", labelWriting,
        [toString content.length, render segs]⟩])

/-- Model of `path.basename`: the last segment of a path. -/
def basenameOf (segs : List String) : List String :=
  match segs.getLast? with
  | some n => [n]
  | none => []

/-- Model of `path.relative(fromDir, file)` for `file` strictly below `fromDir`
(the only case `copy` reaches it in): drop the `fromDir` prefix. -/
def relativeSegs (fromDir file : List String) : List String :=
  file.drop fromDir.length

/-- The body of `copy`'s `forEach` (src/index.js lines 27–38): write
to `toDir` joined with the base name when the scanned file is
`fromDir` itself, else joined with the path relative to `fromDir`; the
content is `this.read(file, null)` — raw mode. -/
def copyStep (fromDir toDir : List String) (st : RootFs × List LogEvent)
    (file : List String) : Except FsError (RootFs × List LogEvent) :=
  match read st.1 file .raw with
  | .error err => .error err
  | .ok content =>
    match write st.1
        (if file = fromDir then toDir ++ basenameOf file
         else toDir ++ relativeSegs fromDir file)
        content .raw with
    | .error err => .error err
    | .ok (fs2, evs) => .ok (fs2, st.2 ++ evs)

/-- Model of `copy(fromDir, toDir)`: `this.scandir(fromDir).forEach(file =>
this.write(..., this.read(file, null), null))`. -/
def copy (fs : RootFs) (fromDir toDir : List String) :
    Except FsError (RootFs × List LogEvent) :=
  let scanned := scandir fs fromDir .null
  scanned.1.foldlM (copyStep fromDir toDir) (fs, scanned.2)

/-- The mutable record built by `log` and passed by reference to every
observer of the `log` event: `{ level, label, name, args }`.  A deleted
`label` is `none`. -/
structure LogData where
  level : String
  label : Option String
  name : String
  args : List String

/-- JS truthiness of the possibly-deleted `label` field: deleted and
`""` are falsy. -/
def truthy : Option String → Bool
  | none => false
  | some s => !(s = "")

/-- Model of `this.emit('log', _data)`: run every registered observer
synchronously, in registration order, on the same record; observers may
also carry arbitrary side effects, modelled by threading a state of an
arbitrary type `σ`. -/
def runObservers {σ : Type} (obs : List (LogData × σ → LogData × σ))
    (d : LogData) (s : σ) : LogData × σ :=
  obs.foldl (fun st g => g st) (d, s)

/-- Model of `log(level, name, label, ...args)` (src/index.js lines 136–154):
default the name, build the record, notify observers, then print
`[name] label` with the args to `console[level]` only when the final
`label` is truthy.  Returns the observers' final state and the printed
line (`none`: nothing printed). -/
def log {σ : Type} (obs : List (LogData × σ → LogData × σ))
    (level name label : String) (args : List String) (s : σ) :
    σ × Option (String × String × List String) :=
  let name1 := if name = "" then "jfFileSystem" else name
  let r := runObservers obs ⟨level, some label, name1, args⟩ s
  (r.2,
   if truthy r.1.label then
     some (r.1.level, "[" ++ r.1.name ++ "] " ++ r.1.label.getD "", r.1.args)
   else none)

/-! ### Helper lemmas -/

theorem pathLe_trans (a b c : List String) (h1 : pathLe a b = true)
    (h2 : pathLe b c = true) : pathLe a c = true := by
  simp only [pathLe, decide_eq_true_eq] at h1 h2 ⊢
  exact le_trans h1 h2

theorem pathLe_total (a b : List String) : pathLe a b || pathLe b a := by
  simp only [pathLe, Bool.or_eq_true, decide_eq_true_eq]
  exact le_total _ _

/-- The scan result is sorted at every level by `_files.sort()`. -/
theorem scanAt_pairwise (p : List String) (oe : Option Entry) (f : ScanFilter) :
    (scanAt p oe f).1.Pairwise (fun a b => pathLe a b = true) := by
  rw [scanAt.eq_def]
  split
  · exact List.sorted_mergeSort pathLe_trans pathLe_total _
  · simp

mutual
/-- Every path in a scan result is the path of a regular file of the
scanned subtree. -/
theorem scanAt_sub (p : List String) (e : Entry) (f : ScanFilter) :
    ∀ q ∈ (scanAt p (some e) f).1, q ∈ filePaths p e := by
  intro q hq
  rw [scanAt.eq_def] at hq
  by_cases hacc : accepts f (render p) = true
  · rw [if_pos hacc] at hq
    cases e with
    | file c => simp_all [filePaths]
    | dir cs =>
      simp only [List.mem_mergeSort] at hq
      rw [filePaths]
      exact scanChildren_sub p cs f q hq
    | symlink => simp at hq
    | unsupported => simp at hq
  · rw [if_neg hacc] at hq
    simp at hq
termination_by sizeOf e

/-- Version of `scanAt_sub` for a children list. -/
theorem scanChildren_sub (p : List String) (cs : List (String × Entry))
    (f : ScanFilter) :
    ∀ q ∈ (scanChildren p cs f).1, q ∈ filePathsL p cs := by
  intro q hq
  match cs with
  | [] => simp [scanChildren] at hq
  | (n, c) :: rest =>
    rw [scanChildren] at hq
    rw [filePathsL]
    rcases List.mem_append.mp hq with h | h
    · exact List.mem_append_left _ (scanAt_sub (p ++ [n]) c f q h)
    · exact List.mem_append_right _ (scanChildren_sub p rest f q h)
termination_by sizeOf cs
end

/-! ### Claim theorems -/

/-- C1: `scandir(root, filter?)` returns a sequence sorted
lexicographically by path that contains only regular files; a symlink
contributes nothing (no path, no event) and an entry of any other
unsupported kind contributes nothing but emits one info event. -/
theorem claim_scandir_sorted_regular_only (fs : RootFs) (root p : List String)
    (e : Entry) (f : ScanFilter) :
    List.Pairwise (fun a b => pathLe a b = true) (scandir fs root f).1
    ∧ (∀ q ∈ (scanAt p (some e) f).1, q ∈ filePaths p e)
    ∧ scanAt p (some .symlink) f = ([], [])
    ∧ (accepts f (render p) = true →
        scanAt p (some .unsupported) f
          = ([], [⟨"info", labelUnsupported, [render p]⟩])) := by
  refine ⟨scanAt_pairwise root (lookupCs fs root) f, scanAt_sub p e f, ?_, ?_⟩
  · rw [scanAt.eq_def]
    split <;> simp
  · intro hacc
    rw [scanAt.eq_def, if_pos hacc]
    simp

/-- Witness for C1: a concrete regular file of a concrete tree is in
the reference enumeration because the scan listed it, and a concrete
unsupported entry yields no path and one info event. -/
theorem claim_scandir_sorted_regular_only_witness :
    (["d", "x.txt"] : List String) ∈ filePaths ["d"] (.dir [("x.txt", .file [7])])
    ∧ scanAt ["u"] (some .unsupported) ScanFilter.null
        = ([], [⟨"info", labelUnsupported, ["/u"]⟩]) := by
  constructor
  · exact (claim_scandir_sorted_regular_only [] [] ["d"]
      (.dir [("x.txt", .file [7])]) .null).2.1 ["d", "x.txt"]
      (by rw [scanAt.eq_def]; simp [accepts, scanChildren, scanAt, render])
  · exact (claim_scandir_sorted_regular_only [] [] ["u"] .unsupported .null).2.2.2
      (by rfl)

/-- C5: scanning a nonexistent path with no filter returns an empty
sequence without raising, and exactly one warn event is emitted. -/
theorem claim_scandir_missing_warns (fs : RootFs) (dir : List String)
    (h : lookupCs fs dir = none) :
    scandir fs dir .null = ([], [⟨"warn", labelNotFound, [render dir]⟩]) := by
  rw [scandir, h, scanAt.eq_def]
  simp [accepts]

/-- Witness for C5: scanning `/nope` in an empty filesystem. -/
theorem claim_scandir_missing_warns_witness :
    scandir [] ["nope"] .null = ([], [⟨"warn", labelNotFound, [render ["nope"]]⟩]) :=
  claim_scandir_missing_warns [] ["nope"] rfl

/-- C6: a path rejected by the filter contributes nothing to the scan
result — the whole subtree is pruned at the node, whatever it holds. -/
theorem claim_scandir_filter_prunes (p : List String) (oe : Option Entry)
    (f : ScanFilter) (h : accepts f (render p) = false) :
    scanAt p oe f = ([], []) := by
  rw [scanAt.eq_def, if_neg]
  simp [h]

/-- Witness for C6: the filter rejects `/d` yet accepts its descendant
`/d/x.txt`; the subtree still contributes nothing. -/
theorem claim_scandir_filter_prunes_witness :
    scanAt ["d"] (some (.dir [("x.txt", .file [7])]))
        (.pred (fun s => s == "/d/x.txt")) = ([], [])
    ∧ accepts (.pred (fun s => s == "/d/x.txt")) (render ["d", "x.txt"]) = true := by
  refine ⟨claim_scandir_filter_prunes ["d"] _ _ (by rfl), by rfl⟩

/-- C9: `rmdir` on a nonexistent path whose filter accepts it raises
the underlying stat error, while `scandir` treats the same nonexistent
root as a recoverable outcome with a warning event. -/
theorem claim_rmdir_missing_throws (fs : RootFs) (dir : List String)
    (level : Int) (f : ScanFilter) (hmiss : lookupCs fs dir = none)
    (hacc : accepts f (render dir) = true) :
    rmdir fs dir level f = .error (.enoent (render dir))
    ∧ scandir fs dir .null = ([], [⟨"warn", labelNotFound, [render dir]⟩]) := by
  constructor
  · rw [rmdir, hmiss, rmdirAt.eq_def, if_pos hacc]
  · exact claim_scandir_missing_warns fs dir hmiss

/-- Witness for C9: removing `/nope` in an empty filesystem. -/
theorem claim_rmdir_missing_throws_witness :
    rmdir [] ["nope"] 0 .null = .error (.enoent (render ["nope"]))
    ∧ scandir [] ["nope"] .null
        = ([], [⟨"warn", labelNotFound, [render ["nope"]]⟩]) :=
  claim_rmdir_missing_throws [] ["nope"] 0 .null rfl rfl

/-- C10: on a nonexistent path both `isDirectory` and `isFile` return
`false` without raising: the stat call runs only behind the existence
check. -/
theorem claim_is_queries_missing_false (fs : RootFs) (segs : List String)
    (h : lookupCs fs segs = none) :
    isDirectory fs segs = .ok false ∧ isFile fs segs = .ok false := by
  constructor
  · simp [isDirectory, existsB, h]
  · simp [isFile, existsB, h]

/-- Witness for C10: querying `/nope` in an empty filesystem. -/
theorem claim_is_queries_missing_false_witness :
    isDirectory [] ["nope"] = .ok false ∧ isFile [] ["nope"] = .ok false :=
  claim_is_queries_missing_false [] ["nope"] rfl

/-- C4: `log` runs every registered observer first, in registration
order, threading one record (and the observers' own state); a line is
printed exactly when the final `label` is truthy, so an observer that
blanks or deletes `label` suppresses the single output line while its
state effects persist; the output is at most one line by construction. -/
theorem claim_log_observers_mutate_suppress {σ : Type}
    (obs : List (LogData × σ → LogData × σ)) (level name label : String)
    (args : List String) (s : σ) :
    (log obs level name label args s).1
      = (runObservers obs
          ⟨level, some label, if name = "" then "jfFileSystem" else name, args⟩ s).2
    ∧ (log obs level name label args s).2.isSome
      = truthy (runObservers obs
          ⟨level, some label, if name = "" then "jfFileSystem" else name, args⟩ s).1.label
    ∧ runObservers obs
        ⟨level, some label, if name = "" then "jfFileSystem" else name, args⟩ s
      = obs.foldl (fun st g => g st)
          (⟨level, some label, if name = "" then "jfFileSystem" else name, args⟩, s) := by
  refine ⟨rfl, ?_, rfl⟩
  rw [log]
  split <;> split <;> simp_all

/-! ### findUp (C3) -/

/-- Loop invariant of `findUp`: the loop result is a prefix of the
resolved start directory, and every strictly longer prefix (every
ancestor strictly below the result) was tested and misses the child. -/
theorem findUpLoop_spec (fs : RootFs) (segs : List String) (filename : String) :
    (∃ k, k ≤ segs.length ∧ findUpLoop fs segs filename = segs.take k)
    ∧ (∀ j, (findUpLoop fs segs filename).length < j → j ≤ segs.length →
        existsB fs (segs.take j ++ [filename]) = false) := by
  induction segs, filename using findUpLoop.induct fs with
  | case1 filename =>
    refine ⟨⟨0, by simp, by rw [findUpLoop]; rfl⟩, ?_⟩
    intro j h1 h2
    simp at h2
    omega
  | case2 filename x xs hex =>
    rw [findUpLoop, if_pos hex]
    refine ⟨⟨(x :: xs).length, le_refl _, (List.take_length _).symm⟩, ?_⟩
    intro j h1 h2
    simp at h1 h2
    omega
  | case3 filename x xs hex ih =>
    rw [findUpLoop, if_neg hex]
    obtain ⟨⟨k, hk, hres⟩, hmax⟩ := ih
    have hdl : (x :: xs).dropLast.length = xs.length := by
      simp [List.length_dropLast]
    have htake : ∀ m, m ≤ xs.length → (x :: xs).dropLast.take m = (x :: xs).take m := by
      intro m hm
      rw [List.dropLast_eq_take, List.take_take]
      congr 1
      simp
      omega
    constructor
    · exact ⟨k, by simp; omega, by rw [hres, htake k (by omega)]⟩
    · intro j h1 h2
      rcases Nat.lt_or_ge j ((x :: xs).length) with hj | hj
      · have hj2 : j ≤ xs.length := by simp at hj ⊢; omega
        rw [← htake j hj2]
        exact hmax j (by omega) (by omega)
      · have : j = (x :: xs).length := by omega
        subst this
        rw [List.take_length]
        exact Bool.not_eq_true _ ▸ (by simpa using hex)

/-- C3: `findUp(startDir, filename)` returns the nearest ancestor
(including the start) that has `filename` as an immediate child,
checking the root itself once more before giving up, and returns `null`
when no ancestor up to and including the root contains it. -/
theorem claim_findUp_nearest (fs : RootFs) (dir : List String) (filename : String) :
    (∀ r, findUp fs dir filename false = some r →
       (∃ k, k ≤ dir.length ∧ r = dir.take k)
       ∧ existsB fs (r ++ [filename]) = true
       ∧ (∀ j, r.length < j → j ≤ dir.length →
           existsB fs (dir.take j ++ [filename]) = false))
    ∧ ((∀ k, k ≤ dir.length → existsB fs (dir.take k ++ [filename]) = false) →
        findUp fs dir filename false = none) := by
  obtain ⟨⟨k, hk, hres⟩, hmax⟩ := findUpLoop_spec fs dir filename
  constructor
  · intro r hr
    simp only [findUp] at hr
    by_cases hex : existsB fs (findUpLoop fs dir filename ++ [filename]) = true
    · rw [if_pos hex] at hr
      simp only [Bool.false_eq_true, if_false, Option.some_inj] at hr
      subst hr
      exact ⟨⟨k, hk, hres⟩, hex, hmax⟩
    · rw [if_neg hex] at hr
      exact absurd hr (by simp)
  · intro hall
    have hfalse : existsB fs (findUpLoop fs dir filename ++ [filename]) = false := by
      rw [hres]
      exact hall k hk
    simp only [findUp, hfalse]
    simp

/-- Witness for C3: in a concrete tree the nearest ancestor is the
root, which indeed has the child. -/
theorem claim_findUp_nearest_witness :
    existsB [("a", Entry.dir [("b", Entry.dir [])]), ("m", Entry.file [])]
      ([] ++ ["m"]) = true :=
  ((claim_findUp_nearest [("a", Entry.dir [("b", Entry.dir [])]), ("m", Entry.file [])]
      ["a", "b"] "m").1 []
    (by simp [findUp, findUpLoop, existsB, lookupCs, getChild, List.dropLast])).2.1

/-! ### rmdir (C2) -/

/-- A child rejected by the filter survives `rmdir`'s children loop
untouched: the whole subtree is skipped before any stat or unlink. -/
theorem rmdirChildren_keeps_rejected (p : List String) (level : Int)
    (f : ScanFilter) (n : String) (c : Entry) :
    ∀ cs, (n, c) ∈ cs → accepts f (render (p ++ [n])) = false →
      ∀ cs2 k evs, rmdirChildren p cs level f = .ok (cs2, k, evs) → (n, c) ∈ cs2 := by
  intro cs
  induction cs with
  | nil => intro h; simp at h
  | cons hd rest ih =>
    obtain ⟨m, d⟩ := hd
    intro hmem hrej cs2 k evs hok
    rw [rmdirChildren] at hok
    rcases List.mem_cons.mp hmem with heq | hrest
    · injection heq with hn hc
      subst hn hc
      have hat : rmdirAt (p ++ [n]) (some c) level f = .ok (some c, 0, []) := by
        rw [rmdirAt.eq_def, if_neg (by simp [hrej])]
      rw [hat] at hok
      dsimp only at hok
      cases h2 : rmdirChildren p rest level f with
      | error err => rw [h2] at hok; exact absurd hok (by simp)
      | ok r2 =>
        rw [h2] at hok
        dsimp only at hok
        injection hok with h3
        injection h3 with h4 h5
        rw [← h4]
        exact List.mem_append_left _ (List.mem_singleton.mpr rfl)
    · cases h1 : rmdirAt (p ++ [m]) (some d) level f with
      | error err => rw [h1] at hok; exact absurd hok (by simp)
      | ok r1 =>
        rw [h1] at hok
        dsimp only at hok
        cases h2 : rmdirChildren p rest level f with
        | error err => rw [h2] at hok; exact absurd hok (by simp)
        | ok r2 =>
          rw [h2] at hok
          dsimp only at hok
          injection hok with h3
          injection h3 with h4 h5
          rw [← h4]
          exact List.mem_append_right _ (ih hrest hrej r2.1 r2.2.1 r2.2.2 (by rw [h2]))

/-- C2: `rmdir` removes a directory only when the unfiltered re-scan
after processing its children is empty (which in turn requires that no
child survived); hence a directory still holding a filter-rejected
regular file is never removed. -/
theorem claim_rmdir_only_when_rescan_empty (p : List String)
    (cs : List (String × Entry)) (level : Int) (f : ScanFilter) :
    (∀ k evs, rmdirAt p (some (.dir cs)) level f = .ok (none, k, evs) →
       ∃ cs2 k2 evs2, rmdirChildren p cs (level - 1) f = .ok (cs2, k2, evs2)
         ∧ (scanAt p (some (.dir cs2)) .null).1 = [] ∧ cs2 = [])
    ∧ (∀ n c, (n, Entry.file c) ∈ cs → accepts f (render (p ++ [n])) = false →
        ∀ k evs, rmdirAt p (some (.dir cs)) level f ≠ .ok (none, k, evs)) := by
  have part1 : ∀ k evs, rmdirAt p (some (.dir cs)) level f = .ok (none, k, evs) →
      ∃ cs2 k2 evs2, rmdirChildren p cs (level - 1) f = .ok (cs2, k2, evs2)
        ∧ (scanAt p (some (.dir cs2)) .null).1 = [] ∧ cs2 = [] := by
    intro k evs hok
    rw [rmdirAt.eq_def] at hok
    by_cases hacc : accepts f (render p) = true
    · rw [if_pos hacc] at hok
      dsimp only at hok
      cases h2 : rmdirChildren p cs (level - 1) f with
      | error err => rw [h2] at hok; exact absurd hok (by simp)
      | ok r2 =>
        obtain ⟨cs2, k2, evs2⟩ := r2
        rw [h2] at hok
        dsimp only at hok
        by_cases hlen : (scanAt p (some (.dir cs2)) .null).1.length = 0
        · rw [if_pos hlen] at hok
          cases cs2 with
          | nil => exact ⟨[], k2, evs2, rfl, List.length_eq_zero.mp hlen, rfl⟩
          | cons hd tl => exact absurd hok (by simp)
        · rw [if_neg hlen] at hok
          exact absurd hok (by simp)
    · rw [if_neg hacc] at hok
      exact absurd hok (by simp)
  refine ⟨part1, ?_⟩
  intro n c hmem hrej k evs hok
  obtain ⟨cs2, k2, evs2, h2, hscan, hnil⟩ := part1 k evs hok
  subst hnil
  exact absurd (rmdirChildren_keeps_rejected p (level - 1) f n (.file c) cs hmem hrej
    [] k2 evs2 h2) (by simp)

/-- Witness for C2: a directory holding a kept (filter-rejected) file
`keep.txt` and a deleted file `del.txt` is not removed. -/
theorem claim_rmdir_only_when_rescan_empty_witness :
    rmdirAt ["d"] (some (.dir [("keep.txt", .file [1]), ("del.txt", .file [2])])) 0
      (.pred (fun s => !(s == "/d/keep.txt"))) ≠ .ok (none, 1, []) :=
  (claim_rmdir_only_when_rescan_empty ["d"]
    [("keep.txt", .file [1]), ("del.txt", .file [2])] 0
    (.pred (fun s => !(s == "/d/keep.txt")))).2 "keep.txt" [1]
    (List.mem_cons_self _ _) (by rfl) 1 []

/-! ### mkdir, write, copy (C7, C8) -/

/-- Looking up the child just replaced by `setChild` yields it. -/
theorem getChild_setChild (cs : List (String × Entry)) (n : String) (e : Entry) :
    getChild (setChild cs n e) n = some e := by
  induction cs with
  | nil => simp [setChild, getChild]
  | cons hd rest ih =>
    obtain ⟨m, c⟩ := hd
    by_cases h : m = n
    · simp [setChild, getChild, h]
    · simp [setChild, getChild, h, ih]

/-- Replacing the same child twice equals replacing it once. -/
theorem setChild_setChild (cs : List (String × Entry)) (n : String) (e1 e2 : Entry) :
    setChild (setChild cs n e1) n e2 = setChild cs n e2 := by
  induction cs with
  | nil => simp [setChild]
  | cons hd rest ih =>
    obtain ⟨m, c⟩ := hd
    by_cases h : m = n
    · simp [setChild, h]
    · simp [setChild, h, ih]

/-- Appending a fresh child makes it visible to `getChild`. -/
theorem getChild_append_none (cs : List (String × Entry)) (n : String) (e : Entry)
    (h : getChild cs n = none) : getChild (cs ++ [(n, e)]) n = some e := by
  induction cs with
  | nil => simp [getChild]
  | cons hd rest ih =>
    obtain ⟨m, c⟩ := hd
    by_cases hm : m = n
    · simp [getChild, hm] at h
    · simp only [getChild, List.cons_append, hm, if_false] at h ⊢
      exact ih h

/-- Rewriting the same content at the same path via `fs.writeFileSync`
succeeds and leaves the tree unchanged. -/
theorem writeFileCs_idem (segs : List String) :
    ∀ cs cs2 c full, writeFileCs cs segs c full = .ok cs2 →
      writeFileCs cs2 segs c full = .ok cs2 := by
  induction segs with
  | nil => intro cs cs2 c full h; simp [writeFileCs] at h
  | cons n rest ih =>
    intro cs cs2 c full h
    cases rest with
    | nil =>
      rw [writeFileCs.eq_def] at h ⊢
      dsimp only at h ⊢
      cases hg : getChild cs n with
      | none =>
        rw [hg] at h
        dsimp only at h
        injection h with h1
        subst h1
        rw [getChild_setChild]
        dsimp only
        rw [setChild_setChild]
      | some e =>
        rw [hg] at h
        cases e with
        | dir cs3 => exact absurd h (by simp)
        | file c3 =>
          dsimp only at h
          injection h with h1
          subst h1
          rw [getChild_setChild]
          dsimp only
          rw [setChild_setChild]
        | symlink =>
          dsimp only at h
          injection h with h1
          subst h1
          rw [getChild_setChild]
          dsimp only
          rw [setChild_setChild]
        | unsupported =>
          dsimp only at h
          injection h with h1
          subst h1
          rw [getChild_setChild]
          dsimp only
          rw [setChild_setChild]
    | cons r rs =>
      rw [writeFileCs.eq_def] at h ⊢
      dsimp only at h ⊢
      cases hg : getChild cs n with
      | none => rw [hg] at h; exact absurd h (by simp)
      | some e =>
        rw [hg] at h
        cases e with
        | dir cs3 =>
          dsimp only at h
          cases hw : writeFileCs cs3 (r :: rs) c full with
          | error err => rw [hw] at h; exact absurd h (by simp)
          | ok cs3' =>
            rw [hw] at h
            dsimp only at h
            injection h with h1
            subst h1
            rw [getChild_setChild]
            dsimp only
            rw [ih cs3 cs3' c full hw]
            dsimp only
            rw [setChild_setChild]
        | file c3 => exact absurd h (by simp)
        | symlink => exact absurd h (by simp)
        | unsupported => exact absurd h (by simp)

/-- After a successful `fs.writeFileSync` the written path holds a
regular file with exactly the written bytes. -/
theorem writeFileCs_lookup (segs : List String) :
    ∀ cs cs2 c full, writeFileCs cs segs c full = .ok cs2 →
      lookupCs cs2 segs = some (.file c) := by
  induction segs with
  | nil => intro cs cs2 c full h; simp [writeFileCs] at h
  | cons n rest ih =>
    intro cs cs2 c full h
    cases rest with
    | nil =>
      rw [writeFileCs.eq_def] at h
      dsimp only at h
      cases hg : getChild cs n with
      | none =>
        rw [hg] at h
        dsimp only at h
        injection h with h1
        subst h1
        simp [lookupCs, getChild_setChild]
      | some e =>
        rw [hg] at h
        cases e with
        | dir cs3 => exact absurd h (by simp)
        | file c3 =>
          dsimp only at h; injection h with h1; subst h1
          simp [lookupCs, getChild_setChild]
        | symlink =>
          dsimp only at h; injection h with h1; subst h1
          simp [lookupCs, getChild_setChild]
        | unsupported =>
          dsimp only at h; injection h with h1; subst h1
          simp [lookupCs, getChild_setChild]
    | cons r rs =>
      rw [writeFileCs.eq_def] at h
      dsimp only at h
      cases hg : getChild cs n with
      | none => rw [hg] at h; exact absurd h (by simp)
      | some e =>
        rw [hg] at h
        cases e with
        | dir cs3 =>
          dsimp only at h
          cases hw : writeFileCs cs3 (r :: rs) c full with
          | error err => rw [hw] at h; exact absurd h (by simp)
          | ok cs3' =>
            rw [hw] at h
            dsimp only at h
            injection h with h1
            subst h1
            simp [lookupCs, getChild_setChild]
            exact ih cs3 cs3' c full hw
        | file c3 => exact absurd h (by simp)
        | symlink => exact absurd h (by simp)
        | unsupported => exact absurd h (by simp)

/-- Is-a-directory at `a :: ps` reduces to the child directory. -/
theorem isDirB_cons (cs cs3 : List (String × Entry)) (a : String)
    (ps : List String) (hg : getChild cs a = some (.dir cs3)) :
    isDirB cs (a :: ps) = isDirB cs3 ps := by
  simp [isDirB, lookupCs, hg]

/-- Writing via `fs.writeFileSync` touches only the leaf: every proper prefix of
the written path that was a directory stays one. -/
theorem writeFileCs_keeps_dirs (ps : List String) :
    ∀ segs t cs cs2 c full, ps ++ t = segs → t ≠ [] →
      isDirB cs ps = true → writeFileCs cs segs c full = .ok cs2 →
      isDirB cs2 ps = true := by
  induction ps with
  | nil => intro segs t cs cs2 c full heq hne hdir h; simp [isDirB, lookupCs]
  | cons a ps2 ih =>
    intro segs t cs cs2 c full heq hne hdir h
    have hrest : ∃ r rs, segs = a :: r :: rs ∧ ps2 ++ t = r :: rs := by
      cases hps2 : ps2 ++ t with
      | nil => simp [hps2] at hne; simp_all
      | cons r rs => exact ⟨r, rs, by rw [← heq]; simp [hps2], rfl⟩
    obtain ⟨r, rs, hsegs, hps2⟩ := hrest
    subst hsegs
    rw [writeFileCs.eq_def] at h
    dsimp only at h
    cases hg : getChild cs a with
    | none => rw [hg] at h; exact absurd h (by simp)
    | some e =>
      rw [hg] at h
      cases e with
      | dir cs3 =>
        dsimp only at h
        cases hw : writeFileCs cs3 (r :: rs) c full with
        | error err => rw [hw] at h; exact absurd h (by simp)
        | ok cs3' =>
          rw [hw] at h
          dsimp only at h
          injection h with h1
          subst h1
          rw [isDirB_cons _ cs3' a ps2 (getChild_setChild cs a (.dir cs3'))]
          rw [isDirB_cons cs cs3 a ps2 hg] at hdir
          exact ih (r :: rs) t cs3 cs3' c full hps2 hne hdir hw
      | file c3 => exact absurd h (by simp)
      | symlink => exact absurd h (by simp)
      | unsupported => exact absurd h (by simp)

/-- After a successful `fs.mkdirSync` the created path is a
directory. -/
theorem mkdirSyncCs_isDirB (segs : List String) :
    ∀ cs cs2 full, mkdirSyncCs cs segs full = .ok cs2 → isDirB cs2 segs = true := by
  induction segs with
  | nil => intro cs cs2 full h; simp [mkdirSyncCs] at h
  | cons n rest ih =>
    intro cs cs2 full h
    cases rest with
    | nil =>
      rw [mkdirSyncCs.eq_def] at h
      dsimp only at h
      cases hg : getChild cs n with
      | none =>
        rw [hg] at h
        dsimp only at h
        injection h with h1
        subst h1
        rw [isDirB_cons _ [] n [] (getChild_append_none cs n (.dir []) hg)]
        simp [isDirB, lookupCs]
      | some e => rw [hg] at h; exact absurd h (by simp)
    | cons r rs =>
      rw [mkdirSyncCs.eq_def] at h
      dsimp only at h
      cases hg : getChild cs n with
      | none => rw [hg] at h; exact absurd h (by simp)
      | some e =>
        rw [hg] at h
        cases e with
        | dir cs3 =>
          dsimp only at h
          cases hw : mkdirSyncCs cs3 (r :: rs) full with
          | error err => rw [hw] at h; exact absurd h (by simp)
          | ok cs3' =>
            rw [hw] at h
            dsimp only at h
            injection h with h1
            subst h1
            rw [isDirB_cons _ cs3' n (r :: rs) (getChild_setChild cs n (.dir cs3'))]
            exact ih cs3 cs3' full hw
        | file c3 => exact absurd h (by simp)
        | symlink => exact absurd h (by simp)
        | unsupported => exact absurd h (by simp)

/-- Calling `mkdir` is a no-op (no change, no event) on an existing
directory. -/
theorem mkdir_noop (fs : RootFs) (segs : List String) (h : isDirB fs segs = true) :
    mkdir fs segs = .ok (fs, []) := by
  rw [mkdir.eq_def, if_pos h]

/-- After a successful `mkdir` the requested path is a directory. -/
theorem mkdir_post (fs : RootFs) (segs : List String) (fs2 : RootFs)
    (evs : List LogEvent) (h : mkdir fs segs = .ok (fs2, evs)) :
    isDirB fs2 segs = true := by
  rw [mkdir.eq_def] at h
  by_cases hd : isDirB fs segs = true
  · rw [if_pos hd] at h
    injection h with h1
    injection h1 with h2 h3
    subst h2
    exact hd
  · rw [if_neg hd] at h
    cases segs with
    | nil =>
      dsimp only at h
      injection h with h1
      injection h1 with h2 h3
      subst h2
      simp [isDirB, lookupCs]
    | cons x xs =>
      dsimp only at h
      cases hm : mkdir fs (x :: xs).dropLast with
      | error err => rw [hm] at h; exact absurd h (by simp)
      | ok r1 =>
        rw [hm] at h
        dsimp only at h
        cases hs : mkdirSyncCs r1.1 (x :: xs) (render (x :: xs)) with
        | error err => rw [hs] at h; exact absurd h (by simp)
        | ok fsn =>
          rw [hs] at h
          dsimp only at h
          injection h with h1
          injection h1 with h2 h3
          subst h2
          exact mkdirSyncCs_isDirB (x :: xs) r1.1 fsn _ hs

/-- C8: `mkdir` on an existing directory changes nothing and emits no
event; hence a second `write` to the same path re-does none of the
directory-creation work and emits only the single write trace. -/
theorem claim_mkdir_write_idempotent (fs : RootFs) (segs : List String)
    (c : List Nat) (enc : Encoding) :
    (isDirB fs segs = true → mkdir fs segs = .ok (fs, []))
    ∧ (∀ fs1 evs1, write fs segs c enc = .ok (fs1, evs1) →
        write fs1 segs c enc = .ok (fs1,
          [⟨"info", labelWriting, [toString c.length, render segs]⟩])) := by
  refine ⟨mkdir_noop fs segs, ?_⟩
  intro fs1 evs1 h
  rw [write] at h
  cases hm : mkdir fs segs.dropLast with
  | error err => rw [hm] at h; exact absurd h (by simp)
  | ok r0 =>
    rw [hm] at h
    dsimp only at h
    cases hw : writeFileCs r0.1 segs c (render segs) with
    | error err => rw [hw] at h; exact absurd h (by simp)
    | ok fsw =>
      rw [hw] at h
      dsimp only at h
      injection h with h1
      injection h1 with h2 h3
      subst h2
      have hne : segs ≠ [] := by
        intro hnil
        subst hnil
        simp [writeFileCs] at hw
      have hdir0 : isDirB r0.1 segs.dropLast = true :=
        mkdir_post fs segs.dropLast r0.1 r0.2 (by rw [hm])
      have hdir1 : isDirB fsw segs.dropLast = true := by
        refine writeFileCs_keeps_dirs segs.dropLast segs [segs.getLast hne]
          r0.1 fsw c (render segs) ?_ (by simp) hdir0 hw
        exact List.dropLast_append_getLast hne
      rw [write, mkdir_noop fsw segs.dropLast hdir1]
      dsimp only
      rw [writeFileCs_idem segs r0.1 fsw c (render segs) hw]
      simp

/-- Witness for C8: writing `/a/f.txt` into an empty filesystem and
then writing it again — the second call leaves the tree unchanged and
emits only the write trace. -/
theorem claim_mkdir_write_idempotent_witness :
    write [("a", Entry.dir [("f.txt", Entry.file [7])])] ["a", "f.txt"] [7] .utf8
      = .ok ([("a", Entry.dir [("f.txt", Entry.file [7])])],
          [⟨"info", labelWriting, [toString ([7] : List Nat).length, render ["a", "f.txt"]]⟩]) :=
  (claim_mkdir_write_idempotent [] ["a", "f.txt"] [7] .utf8).2
    [("a", Entry.dir [("f.txt", Entry.file [7])])]
    [⟨"info", labelDirCreated, [render ["a"]]⟩,
     ⟨"info", labelWriting, [toString ([7] : List Nat).length, render ["a", "f.txt"]]⟩]
    (by simp [write, mkdir, mkdirSyncCs, writeFileCs, isDirB, lookupCs, getChild,
          setChild, List.dropLast])

/-- A successful raw `read` returns exactly the stored bytes. -/
theorem read_lookup (fs : RootFs) (segs : List String) (enc : Encoding)
    (c : List Nat) (h : read fs segs enc = .ok c) :
    lookupCs fs segs = some (.file c) := by
  unfold JfFs.read at h
  cases hl : lookupCs fs segs with
  | none => rw [hl] at h; exact absurd h (by simp)
  | some e =>
    rw [hl] at h
    cases e with
    | file c2 => dsimp only at h; injection h with h1; subst h1; rfl
    | dir cs => exact absurd h (by simp)
    | symlink => exact absurd h (by simp)
    | unsupported => exact absurd h (by simp)

/-- After a successful `write` the target path holds a regular file
with exactly the given bytes. -/
theorem write_lookup (fs : RootFs) (segs : List String) (c : List Nat)
    (enc : Encoding) (fs2 : RootFs) (evs : List LogEvent)
    (h : write fs segs c enc = .ok (fs2, evs)) :
    lookupCs fs2 segs = some (.file c) := by
  rw [write] at h
  cases hm : mkdir fs segs.dropLast with
  | error err => rw [hm] at h; exact absurd h (by simp)
  | ok r0 =>
    rw [hm] at h
    dsimp only at h
    cases hw : writeFileCs r0.1 segs c (render segs) with
    | error err => rw [hw] at h; exact absurd h (by simp)
    | ok fsw =>
      rw [hw] at h
      dsimp only at h
      injection h with h1
      injection h1 with h2 h3
      subst h2
      exact writeFileCs_lookup segs r0.1 fsw c (render segs) hw

/-- C7: `copy` folds its write step over the files enumerated under
the source; each step writes to `toDir` joined with the base name when
the file is the source root itself, else to `toDir` joined with the
path relative to the source root, and the destination afterwards holds
exactly the source's bytes (read and write run in raw mode). -/
theorem claim_copy_dest_byte_identical (fromD toD file : List String)
    (st : RootFs × List LogEvent) (fs2 : RootFs) (evs : List LogEvent)
    (h : copyStep fromD toD st file = .ok (fs2, evs)) :
    (∀ fs, copy fs fromD toD
       = (scandir fs fromD .null).1.foldlM (copyStep fromD toD)
           (fs, (scandir fs fromD .null).2))
    ∧ (file = fromD → lookupCs fs2 (toD ++ basenameOf file) = lookupCs st.1 file)
    ∧ (file ≠ fromD →
        lookupCs fs2 (toD ++ relativeSegs fromD file) = lookupCs st.1 file) := by
  rw [copyStep] at h
  cases hr : read st.1 file .raw with
  | error err => rw [hr] at h; exact absurd h (by simp)
  | ok content =>
    rw [hr] at h
    dsimp only at h
    refine ⟨fun fs => rfl, ?_, ?_⟩
    · intro heq
      rw [if_pos heq] at h
      cases hw : write st.1 (toD ++ basenameOf file) content .raw with
      | error err => rw [hw] at h; exact absurd h (by simp)
      | ok r2 =>
        rw [hw] at h
        dsimp only at h
        injection h with h1
        injection h1 with h2 h3
        subst h2
        rw [write_lookup st.1 (toD ++ basenameOf file) content .raw r2.1 r2.2 (by rw [hw]),
          read_lookup st.1 file .raw content hr]
    · intro hne
      rw [if_neg hne] at h
      cases hw : write st.1 (toD ++ relativeSegs fromD file) content .raw with
      | error err => rw [hw] at h; exact absurd h (by simp)
      | ok r2 =>
        rw [hw] at h
        dsimp only at h
        injection h with h1
        injection h1 with h2 h3
        subst h2
        rw [write_lookup st.1 (toD ++ relativeSegs fromD file) content .raw r2.1 r2.2 (by rw [hw]),
          read_lookup st.1 file .raw content hr]

/-- Witness for C7: copying `/b` (holding `x.txt`) to `/dest` puts the
same bytes at `/dest/x.txt`. -/
theorem claim_copy_dest_byte_identical_witness :
    lookupCs [("b", Entry.dir [("x.txt", Entry.file [2])]),
              ("dest", Entry.dir [("x.txt", Entry.file [2])])]
        (["dest"] ++ relativeSegs ["b"] ["b", "x.txt"])
      = lookupCs (([("b", Entry.dir [("x.txt", Entry.file [2])])],
          ([] : List LogEvent)) : RootFs × List LogEvent).1 ["b", "x.txt"] :=
  (claim_copy_dest_byte_identical ["b"] ["dest"] ["b", "x.txt"]
    ([("b", Entry.dir [("x.txt", Entry.file [2])])], [])
    [("b", Entry.dir [("x.txt", Entry.file [2])]),
     ("dest", Entry.dir [("x.txt", Entry.file [2])])]
    [⟨"info", labelDirCreated, [render ["dest"]]⟩,
     ⟨"info", labelWriting, [toString ([2] : List Nat).length, render ["dest", "x.txt"]]⟩]
    (by simp [copyStep, JfFs.read, write, mkdir, mkdirSyncCs, writeFileCs,
          lookupCs, getChild, setChild, isDirB, relativeSegs, basenameOf,
          List.dropLast])).2.2 (by decide)

end JfFs
